import Mathlib

/-!
Verification of the skill synchronisation tool (`manage_skills.py`, two
variants: `opencode-installer` and `skills-manager`).

The filesystem is embedded as an association list from absolute paths
(lists of segments below the root) to nodes (directories, or files with
their byte content).  The `shutil` / `pathlib` primitives the tool uses
(`rmtree`, `copytree`, `mkdir(parents=True, exist_ok=True)`, `exists`,
`is_dir`, `iterdir`, the `/` path join) are modelled as atomic operations
on that state; the OS-level resolution of `.` and `..` segments is
modelled by `normalize`.  The tool's own functions (`install_skill`,
`remove_skill`, `get_dest_skills_dir`, the enumeration and batch logic of
`main`) are translated line by line from the python sources.
-/

set_option autoImplicit false

namespace SkillSync

/-- A filesystem path: the list of its segments below the root (`[]` is the root). -/
abbrev Path := List String

/-- A filesystem node: a directory, or a file with its byte content. -/
inductive Node where
  | dirN : Node
  | fileN : List Nat → Node
deriving DecidableEq, BEq, Repr

/-- A filesystem state: entries keyed by absolute path. -/
abbrev FS := List (Path × Node)

/-- One step of OS-style path resolution: `.` and empty segments vanish,
`..` goes up one level (staying at the root when already there). -/
def pushSeg (acc : List String) (s : String) : List String :=
  if s == "" || s == "." then acc
  else if s == ".." then acc.dropLast
  else acc ++ [s]

/-- Resolve a path the way the operating system does when accessing it. -/
def normalize (p : Path) : Path := p.foldl pushSeg []

/-- Look up the node stored at a path (after OS resolution). -/
def lookupFS (fs : FS) (p : Path) : Option Node := List.lookup (normalize p) fs

/-- `Path.exists()`. -/
def existsFS (fs : FS) (p : Path) : Bool := (lookupFS fs p).isSome

/-- `Path.is_dir()`. -/
def isDirFS (fs : FS) (p : Path) : Bool := lookupFS fs p == some Node.dirN

/-- `isUnder q e`: path `e` is `q` itself or lies below it. -/
def isUnder (q e : Path) : Bool := e.take q.length == q

/-- `shutil.rmtree p`: delete the whole tree rooted at `p`; raises when `p`
is missing or is not a directory. -/
def rmtreeFS (fs : FS) (p : Path) : Except String FS :=
  match List.lookup (normalize p) fs with
  | some Node.dirN => Except.ok (fs.filter (fun e => !(isUnder (normalize p) e.1)))
  | some (Node.fileN _) => Except.error "NotADirectoryError"
  | none => Except.error "FileNotFoundError"

/-- The nonempty prefixes of a path, shortest first: the chain of
directories from just below the root down to the path itself. -/
def ancestors (q : Path) : List Path := (List.range q.length).map (fun i => q.take (i + 1))

/-- Does a file (not a directory) sit at this path. -/
def hasFileAt (fs : FS) (r : Path) : Bool :=
  match List.lookup r fs with
  | some (Node.fileN _) => true
  | _ => false

/-- The directory entries `os.makedirs` would have to create for `q` to exist. -/
def missingDirs (fs : FS) (q : Path) : FS :=
  ((ancestors q).filter (fun r => (List.lookup r fs).isNone)).map (fun r => (r, Node.dirN))

/-- `Path.mkdir(parents=True, exist_ok=True)`: create the directory and all
missing ancestors; raises when a file sits somewhere on the chain. -/
def mkdirParentsFS (fs : FS) (p : Path) : Except String FS :=
  let q := normalize p
  if (ancestors q).any (fun r => hasFileAt fs r) then Except.error "FileExistsError"
  else Except.ok (fs ++ missingDirs fs q)

/-- The tree below `p`: all entries at or under `p`, rekeyed relative to `p`. -/
def subtree (fs : FS) (p : Path) : FS :=
  (fs.filter (fun e => isUnder p e.1)).map (fun e => (e.1.drop p.length, e.2))

/-- The entries a recursive copy of the tree at `s` over to `d` adds. -/
def copySub (fs : FS) (s d : Path) : FS :=
  (subtree fs s).map (fun e => (d ++ e.1, e.2))

/-- `shutil.copytree src dst`: raises when `src` is missing or is a file, or
when `dst` already exists; otherwise creates the missing ancestors of `dst`
(via `os.makedirs`) and copies the whole tree at `src` to `dst`. -/
def copytreeFS (fs : FS) (src dst : Path) : Except String FS :=
  let s := normalize src
  let d := normalize dst
  match List.lookup s fs with
  | none => Except.error "FileNotFoundError"
  | some (Node.fileN _) => Except.error "NotADirectoryError"
  | some Node.dirN =>
    if (List.lookup d fs).isSome then Except.error "FileExistsError"
    else
      let fs1 := fs ++ missingDirs fs d.dropLast
      Except.ok (fs1 ++ copySub fs1 s d)

/-- `install_skill` (identical in both variants): warn and skip when the
source is missing; otherwise delete any existing destination, create the
destination's parent, copy the tree; any exception is caught and reported
as failure, leaving the state the prior steps produced. -/
def install_skill (fs : FS) (source_path dest_path : Path) : Bool × FS :=
  if !(existsFS fs source_path) then (false, fs)
  else
    match (if existsFS fs dest_path then rmtreeFS fs dest_path else Except.ok fs) with
    | Except.error _ => (false, fs)
    | Except.ok fs1 =>
      match mkdirParentsFS fs1 dest_path.dropLast with
      | Except.error _ => (false, fs1)
      | Except.ok fs2 =>
        match copytreeFS fs2 source_path dest_path with
        | Except.error _ => (false, fs2)
        | Except.ok fs3 => (true, fs3)

/-- `remove_skill` (identical in both variants): warn and skip when the
destination is missing; otherwise delete its tree, catching any exception. -/
def remove_skill (fs : FS) (dest_path : Path) : Bool × FS :=
  if !(existsFS fs dest_path) then (false, fs)
  else
    match rmtreeFS fs dest_path with
    | Except.ok fs1 => (true, fs1)
    | Except.error _ => (false, fs)

/-- Split a character list at every slash. -/
def splitSlashAux : List Char → List Char → List String
  | [], acc => [String.mk acc.reverse]
  | c :: cs, acc =>
    if c == '/' then String.mk acc.reverse :: splitSlashAux cs []
    else splitSlashAux cs (c :: acc)

/-- Split a string at every slash (the segments of a path string). -/
def splitSlash (s : String) : List String := splitSlashAux s.data []

/-- Does the string start with the given character. -/
def headIs (c : Char) (s : String) : Bool :=
  match s.data with
  | [] => false
  | d :: _ => d == c

/-- `pathlib`'s `/`: append the name's segments; an absolute name replaces
the base path. -/
def pathJoin (root : Path) (name : String) : Path :=
  let segs := (splitSlash name).filter (fun s => !(s == ""))
  if headIs '/' name then segs else root ++ segs

/-- The names of the immediate subdirectory entries of `root`
(`d for d in root.iterdir() if d.is_dir()`), in filesystem order. -/
def iterdirDirs (fs : FS) (root : Path) : List String :=
  let q := normalize root
  fs.filterMap (fun e =>
    if e.1.length == q.length + 1 && isUnder q e.1 && e.2 == Node.dirN
    then e.1.getLast? else none)

/-- The management-tool directories the unified variant's `install --all` skips. -/
def excludedDirs : List String := ["skills-manager", "antigravity-installer", "opencode-installer"]

/-- The `install --all` enumeration of `opencode-installer/manage_skills.py`:
immediate subdirectories whose name does not start with a dot. -/
def skillsToInstallOpencode (fs : FS) (sourceRoot : Path) : List String :=
  (iterdirDirs fs sourceRoot).filter (fun n => !(headIs '.' n))

/-- The `install --all` enumeration of `skills-manager/manage_skills.py`:
immediate subdirectories, hidden names and the installer directories excluded. -/
def skillsToInstallUnified (fs : FS) (sourceRoot : Path) : List String :=
  (iterdirDirs fs sourceRoot).filter
    (fun n => !(headIs '.' n) && !(excludedDirs.contains n))

/-- The set the claim says `install --all` attempts, written from the spec's
words: immediate subdirectories of the source root, minus entries whose
names start with a dot, minus the fixed excluded management-tool names. -/
def claimedInstallSet (fs : FS) (sourceRoot : Path) : List String :=
  (iterdirDirs fs sourceRoot).filter
    (fun n => !(headIs '.' n) && !(excludedDirs.contains n))

/-- The two destination profiles of the unified variant. -/
inductive Target where
  | opencode : Target
  | antigravity : Target
deriving DecidableEq, Repr

/-- The two scopes of the unified variant. -/
inductive Scope where
  | globalScope : Scope
  | workspace : Scope
deriving DecidableEq, Repr

/-- The upward search for a `.agent` marker directory in the workspace
branch of `get_dest_skills_dir`: starting at the current directory, walk to
the filesystem root (exclusive), returning the first `<dir>/.agent` that
exists and is a directory. -/
def findAgentUp (fs : FS) (current : Path) : Option Path :=
  if h : current.isEmpty then none
  else if existsFS fs (current ++ [".agent"]) && isDirFS fs (current ++ [".agent"]) then
    some (current ++ [".agent"])
  else findAgentUp fs current.dropLast
termination_by current.length
decreasing_by
  simp only [List.isEmpty_iff] at h
  have : current.length ≠ 0 := fun hl => h (List.eq_nil_of_length_eq_zero hl)
  simp only [List.length_dropLast]
  omega

/-- `get_dest_skills_dir` of `skills-manager/manage_skills.py`, as a function
of the filesystem, the home directory and the current working directory. -/
def get_dest_skills_dir (fs : FS) (home cwd : Path) (target : Target) (scope : Scope) : Path :=
  match target with
  | Target.opencode => home ++ [".config", "opencode", "skills"]
  | Target.antigravity =>
    match scope with
    | Scope.globalScope => home ++ [".gemini", "antigravity", "skills"]
    | Scope.workspace =>
      match findAgentUp fs cwd with
      | some agentDir => agentDir ++ ["skills"]
      | none => cwd ++ [".agent", "skills"]

/-- `get_dest_skills_dir` of `opencode-installer/manage_skills.py`. -/
def get_dest_skills_dir_opencode (home : Path) : Path :=
  home ++ [".config", "opencode", "skills"]

/-- The scope validation in the unified `main`: opencode with workspace
scope prints a warning and proceeds with global scope.  Returns the
effective scope and whether the warning was printed. -/
def normalizeScope (target : Target) (scope : Scope) : Scope × Bool :=
  match target, scope with
  | Target.opencode, Scope.workspace => (Scope.globalScope, true)
  | _, s => (s, false)

/-- The observable outcome of one `main` command: process exit code, the
summary's success count and attempt count, and the final filesystem. -/
structure RunResult where
  exitCode : Nat
  succeeded : Nat
  attempted : Nat
  fs : FS
deriving DecidableEq, Repr

/-- Python's `not args.skill`: true when the skill argument is absent or is
the empty string (both are falsy). -/
def falsyArg (skillArg : Option String) : Bool :=
  match skillArg with
  | none => true
  | some s => s == ""

/-- The batch loop of `main`: run one skill after the other, counting
successes; a failed item never stops the loop. -/
def runBatch (step : FS → String → Bool × FS) (fs : FS) (names : List String) : Nat × FS :=
  names.foldl (fun acc n =>
    let r := step acc.2 n
    (if r.1 then acc.1 + 1 else acc.1, r.2)) (0, fs)

/-- The `install` branch of `main`, parameterised by the variant's
`--all` enumeration. -/
def mainInstall (enum : FS → Path → List String) (fs : FS) (sourceRoot destRoot : Path)
    (skillArg : Option String) (allFlag : Bool) : RunResult :=
  if falsyArg skillArg && !allFlag then ⟨1, 0, 0, fs⟩
  else
    let names := if allFlag then enum fs sourceRoot else [skillArg.getD ""]
    let r := runBatch
      (fun s n => install_skill s (pathJoin sourceRoot n) (pathJoin destRoot n)) fs names
    ⟨0, r.1, names.length, r.2⟩

/-- The `remove` branch of `main` (identical in both variants). -/
def mainRemove (fs : FS) (destRoot : Path) (skillArg : Option String) (allFlag : Bool) :
    RunResult :=
  if falsyArg skillArg && !allFlag then ⟨1, 0, 0, fs⟩
  else if allFlag && !(existsFS fs destRoot) then ⟨0, 0, 0, fs⟩
  else
    let names := if allFlag then (iterdirDirs fs destRoot).filter (fun n => !(headIs '.' n))
      else [skillArg.getD ""]
    let r := runBatch (fun s n => remove_skill s (pathJoin destRoot n)) fs names
    ⟨0, r.1, names.length, r.2⟩

/-- A path segment that the OS resolves to itself. -/
def plainSeg (s : String) : Bool := !(s == "") && !(s == ".") && !(s == "..")

/-- A path all of whose segments are plain: OS resolution leaves it unchanged. -/
def canonPath (p : Path) : Bool := p.all plainSeg

/-- Well-formedness of a filesystem state: every entry's proper ancestors
are present as directories (what any real filesystem guarantees). -/
def prefixClosedB (fs : FS) : Bool :=
  fs.all (fun e => (ancestors e.1).all
    (fun r => r == e.1 || List.lookup r fs == some Node.dirN))

/-- `Path.exists()` as an explicit state transition (it reads the state and
returns it unchanged). -/
def existsOp (fs : FS) (p : Path) : Bool × FS := ((List.lookup (normalize p) fs).isSome, fs)

/-- `Path.is_dir()` as an explicit state transition. -/
def isDirOp (fs : FS) (p : Path) : Bool × FS := (List.lookup (normalize p) fs == some Node.dirN, fs)

/-- The workspace marker search with the filesystem state threaded through
every primitive call, step for step as the python loop performs them. -/
def findAgentUpSt (fs : FS) (current : Path) : Option Path × FS :=
  if h : current.isEmpty then (none, fs)
  else
    let r1 := existsOp fs (current ++ [".agent"])
    let r2 := isDirOp r1.2 (current ++ [".agent"])
    if r1.1 && r2.1 then (some (current ++ [".agent"]), r2.2)
    else findAgentUpSt r2.2 current.dropLast
termination_by current.length
decreasing_by
  simp only [List.isEmpty_iff] at h
  have : current.length ≠ 0 := fun hl => h (List.eq_nil_of_length_eq_zero hl)
  simp only [List.length_dropLast]
  omega

/-- Destination resolution with the filesystem state threaded through every
primitive call: the pair of the resolved path and the state afterwards. -/
def getDestSkillsDirSt (fs : FS) (home cwd : Path) (target : Target) (scope : Scope) :
    Path × FS :=
  match target with
  | Target.opencode => (home ++ [".config", "opencode", "skills"], fs)
  | Target.antigravity =>
    match scope with
    | Scope.globalScope => (home ++ [".gemini", "antigravity", "skills"], fs)
    | Scope.workspace =>
      let r := findAgentUpSt fs cwd
      match r.1 with
      | some agentDir => (agentDir ++ ["skills"], r.2)
      | none => (cwd ++ [".agent", "skills"], r.2)

/-- A source root holding a genuine skill next to a directory named like the
management tooling (the state the C2 counterexample evaluates). -/
def exC2FS : FS :=
  [(["repo", "skills"], Node.dirN),
   (["repo", "skills", "alpha"], Node.dirN),
   (["repo", "skills", "skills-manager"], Node.dirN)]

/-- A destination root with an installed skill, sitting inside its parent
configuration directory (the state the C10 theorem evaluates). -/
def exC10FS : FS :=
  [(["home"], Node.dirN),
   (["home", ".config"], Node.dirN),
   (["home", ".config", "opencode"], Node.dirN),
   (["home", ".config", "opencode", "other.txt"], Node.fileN [111]),
   (["home", ".config", "opencode", "skills"], Node.dirN),
   (["home", ".config", "opencode", "skills", "sk"], Node.dirN)]

/-- The destination root of the C10 scenario. -/
def exC10DestRoot : Path := ["home", ".config", "opencode", "skills"]

/-- The source root of the shared witness world. -/
def exSrcRoot : Path := ["repo", "skills"]

/-- The destination root of the shared witness world. -/
def exDestRoot : Path := ["home", ".config", "opencode", "skills"]

/-- A workspace whose root holds the `.agent` marker, with the current
directory one level below (the state the C3 witness evaluates). -/
def exC3FS : FS :=
  [(["ws"], Node.dirN), (["ws", ".agent"], Node.dirN), (["ws", "proj"], Node.dirN)]

/-- A small well-formed world with one skill in the source repository
(shared by the witnesses). -/
def exWorld : FS :=
  [(["repo"], Node.dirN),
   (["repo", "skills"], Node.dirN),
   (["repo", "skills", "sk"], Node.dirN),
   (["repo", "skills", "sk", "SKILL.md"], Node.fileN [104, 105]),
   (["home"], Node.dirN)]

/-! ### Helper lemmas about paths -/

theorem isUnder_iff {q e : Path} : isUnder q e = true ↔ e.take q.length = q := by
  simp [isUnder]

theorem isUnder_append (q t : Path) : isUnder q (q ++ t) = true := by
  simp [isUnder, List.take_left]

theorem isUnder_refl (q : Path) : isUnder q q = true := by
  have h := isUnder_append q []
  simpa using h

theorem isUnder_exists {q e : Path} (h : isUnder q e = true) : ∃ t, e = q ++ t := by
  rw [isUnder_iff] at h
  refine ⟨e.drop q.length, ?_⟩
  conv_lhs => rw [← List.take_append_drop q.length e]
  rw [h]

theorem isUnder_length {q e : Path} (h : isUnder q e = true) : q.length ≤ e.length := by
  obtain ⟨t, rfl⟩ := isUnder_exists h
  simp

theorem isUnder_false_of_shorter {q e : Path} (h : e.length < q.length) :
    isUnder q e = false := by
  cases hu : isUnder q e
  · rfl
  · exact absurd (isUnder_length hu) (Nat.not_le_of_lt h)

theorem isUnder_trans {p q e : Path} (h1 : isUnder p q = true) (h2 : isUnder q e = true) :
    isUnder p e = true := by
  obtain ⟨t, rfl⟩ := isUnder_exists h1
  obtain ⟨u, rfl⟩ := isUnder_exists h2
  rw [List.append_assoc]
  exact isUnder_append p (t ++ u)

theorem isUnder_take (q : Path) (n : Nat) : isUnder (q.take n) q = true := by
  rw [isUnder_iff, List.length_take]
  rcases Nat.le_total n q.length with h | h
  · rw [Nat.min_eq_left h]
  · rw [Nat.min_eq_right h, List.take_length, List.take_of_length_le h]

theorem isUnder_comparable {p q e : Path} (hp : isUnder p e = true) (hq : isUnder q e = true) :
    isUnder p q = true ∨ isUnder q p = true := by
  rw [isUnder_iff] at hp hq
  rcases Nat.le_total p.length q.length with h | h
  · left
    rw [isUnder_iff, ← hq, List.take_take, Nat.min_eq_left h, hp]
  · right
    rw [isUnder_iff, ← hp, List.take_take, Nat.min_eq_left h, hq]

theorem isUnder_dropLast (d : Path) : isUnder d.dropLast d = true := by
  rw [List.dropLast_eq_take]
  exact isUnder_take d (d.length - 1)

theorem isUnder_append_cancel {d t u : Path} : isUnder (d ++ t) (d ++ u) = isUnder t u := by
  simp only [isUnder, List.length_append, List.take_append]
  rw [Bool.eq_iff_iff]
  simp [List.append_right_inj]

/-! ### Helper lemmas about association-list lookup -/

section LookupLemmas

variable {α : Type} {β : Type} [BEq α] [LawfulBEq α]

theorem lookup_append (k : α) (l m : List (α × β)) :
    List.lookup k (l ++ m) = (List.lookup k l).or (List.lookup k m) := by
  induction l with
  | nil => simp [List.lookup]
  | cons e t ih =>
    obtain ⟨a, b⟩ := e
    by_cases h : k = a
    · subst h
      simp [List.lookup]
    · have hb : (k == a) = false := by simp [h]
      simp [List.lookup, hb, ih]

theorem lookup_filter (g : α → Bool) (k : α) (l : List (α × β)) :
    List.lookup k (l.filter (fun e => g e.1)) =
      if g k then List.lookup k l else none := by
  induction l with
  | nil => simp [List.lookup]
  | cons e t ih =>
    obtain ⟨a, b⟩ := e
    by_cases h : k = a
    · subst h
      cases hg : g k <;> simp [List.lookup, List.filter, hg, ih]
    · have hb : (k == a) = false := by simp [h]
      cases hg : g a <;> simp [List.lookup, List.filter, hg, hb, ih]

theorem lookup_eq_none_iff (k : α) (l : List (α × β)) :
    List.lookup k l = none ↔ ∀ e ∈ l, e.1 ≠ k := by
  induction l with
  | nil => simp [List.lookup]
  | cons e t ih =>
    obtain ⟨a, b⟩ := e
    by_cases h : k = a
    · subst h
      simp [List.lookup]
    · have hb : (k == a) = false := by simp [h]
      simp only [List.lookup, hb, List.mem_cons]
      rw [ih]
      constructor
      · rintro hall e (rfl | he)
        · exact fun hak => h hak.symm
        · exact hall e he
      · intro hall e he
        exact hall e (Or.inr he)

theorem lookup_isSome_of_mem {k : α} {v : β} {l : List (α × β)} (h : (k, v) ∈ l) :
    (List.lookup k l).isSome := by
  induction l with
  | nil => simp at h
  | cons e t ih =>
    obtain ⟨a, b⟩ := e
    by_cases hk : k = a
    · subst hk
      simp [List.lookup]
    · have hb : (k == a) = false := by simp [hk]
      simp only [List.lookup, hb]
      rcases List.mem_cons.1 h with he | ht
      · exact absurd (congrArg Prod.fst he) hk
      · exact ih ht

theorem lookup_mem {k : α} {v : β} {l : List (α × β)} (h : List.lookup k l = some v) :
    (k, v) ∈ l := by
  induction l with
  | nil => simp [List.lookup] at h
  | cons e t ih =>
    obtain ⟨a, b⟩ := e
    by_cases hk : k = a
    · subst hk
      simp only [List.lookup, beq_self_eq_true] at h
      cases h
      exact List.mem_cons_self _ _
    · have hb : (k == a) = false := by simp [hk]
      simp only [List.lookup, hb] at h
      exact List.mem_cons_of_mem _ (ih h)

end LookupLemmas

/-! ### Normalisation of canonical paths -/

theorem pushSeg_plain {s : String} (h : plainSeg s = true) (acc : List String) :
    pushSeg acc s = acc ++ [s] := by
  simp only [plainSeg, Bool.and_eq_true, Bool.not_eq_true'] at h
  simp [pushSeg, h.1.1, h.1.2, h.2]

theorem normalize_canon {p : Path} (h : canonPath p = true) : normalize p = p := by
  suffices hgen : ∀ acc, List.foldl pushSeg acc p = acc ++ p by
    have := hgen []
    simpa [normalize] using this
  simp only [canonPath, List.all_eq_true] at h
  induction p with
  | nil => intro acc; simp
  | cons s t ih =>
    intro acc
    have hs : plainSeg s = true := h s (List.mem_cons_self _ _)
    have ht : ∀ x ∈ t, plainSeg x = true := fun x hx => h x (List.mem_cons_of_mem _ hx)
    simp only [List.foldl_cons, pushSeg_plain hs, ih ht]
    simp

/-! ### Ancestors and canonical paths -/

theorem mem_ancestors {q r : Path} :
    r ∈ ancestors q ↔ ∃ i, i < q.length ∧ q.take (i + 1) = r := by
  simp [ancestors]

theorem mem_ancestors_spec {q r : Path} (h : r ∈ ancestors q) :
    isUnder r q = true ∧ r ≠ [] ∧ r.length ≤ q.length := by
  rw [mem_ancestors] at h
  obtain ⟨i, hi, rfl⟩ := h
  refine ⟨isUnder_take q (i + 1), ?_, ?_⟩
  · have hlen : (q.take (i + 1)).length = (i + 1) ⊓ q.length := List.length_take _ _
    intro hnil
    rw [hnil] at hlen
    simp at hlen
    omega
  · rw [List.length_take]
    exact Nat.min_le_right _ _

theorem mem_ancestors_of_isUnder {q r : Path} (hr : isUnder r q = true) (hne : r ≠ [])
    (hproper : r ≠ q) : r ∈ ancestors q := by
  rw [mem_ancestors]
  have htake : q.take r.length = r := isUnder_iff.1 hr
  have hlen : r.length ≤ q.length := isUnder_length hr
  have hpos : 0 < r.length := List.length_pos.2 hne
  have hlt : r.length < q.length := by
    rcases Nat.lt_or_ge r.length q.length with h | h
    · exact h
    · exfalso
      have : r.length = q.length := Nat.le_antisymm hlen h
      rw [this, List.take_length] at htake
      exact hproper htake.symm
  exact ⟨r.length - 1, by omega, by rw [Nat.sub_add_cancel hpos, htake]⟩

theorem canonPath_dropLast {p : Path} (h : canonPath p = true) :
    canonPath p.dropLast = true := by
  simp only [canonPath, List.all_eq_true] at h ⊢
  intro x hx
  exact h x (List.dropLast_sublist p |>.subset hx)

theorem canonPath_append {p q : Path} (hp : canonPath p = true) (hq : canonPath q = true) :
    canonPath (p ++ q) = true := by
  simp only [canonPath, List.all_eq_true] at hp hq ⊢
  intro x hx
  rcases List.mem_append.1 hx with h | h
  · exact hp x h
  · exact hq x h

/-! ### missingDirs lemmas -/

theorem mem_missingDirs {fs : FS} {q : Path} {e : Path × Node} (h : e ∈ missingDirs fs q) :
    e.1 ∈ ancestors q ∧ e.2 = Node.dirN ∧ List.lookup e.1 fs = none := by
  simp only [missingDirs, List.mem_map, List.mem_filter] at h
  obtain ⟨r, ⟨hr, hnone⟩, rfl⟩ := h
  exact ⟨hr, rfl, Option.isNone_iff_eq_none.1 hnone⟩

theorem missingDirs_eq_nil {fs : FS} {q : Path}
    (h : ∀ r ∈ ancestors q, (List.lookup r fs).isSome = true) : missingDirs fs q = [] := by
  unfold missingDirs
  have hf : (ancestors q).filter (fun r => (List.lookup r fs).isNone) = [] := by
    rw [List.filter_eq_nil_iff]
    intro r hr hn
    have hs := h r hr
    rw [Option.isNone_iff_eq_none] at hn
    rw [hn] at hs
    simp at hs
  rw [hf]
  rfl

theorem lookup_after_mkdir {fs : FS} {q : Path} (r : Path) (hr : r ∈ ancestors q) :
    (List.lookup r (fs ++ missingDirs fs q)).isSome = true := by
  rw [lookup_append]
  cases hlf : List.lookup r fs with
  | some v => simp [Option.or]
  | none =>
    have hmem : (r, Node.dirN) ∈ missingDirs fs q := by
      simp only [missingDirs, List.mem_map, List.mem_filter]
      exact ⟨r, ⟨hr, by rw [hlf]; rfl⟩, rfl⟩
    have hsome := lookup_isSome_of_mem hmem
    cases hlm : List.lookup r (missingDirs fs q) with
    | none => rw [hlm] at hsome; simp at hsome
    | some w => simp [Option.or]

/-! ### subtree lemmas -/

theorem subtree_append (l m : FS) (p : Path) :
    subtree (l ++ m) p = subtree l p ++ subtree m p := by
  simp [subtree, List.filter_append, List.map_append]

theorem subtree_eq_nil_iff {l : FS} {p : Path} :
    subtree l p = [] ↔ ∀ e ∈ l, isUnder p e.1 = false := by
  unfold subtree
  rw [List.map_eq_nil_iff, List.filter_eq_nil_iff]
  constructor
  · intro h e he
    have := h e he
    rwa [Bool.not_eq_true] at this
  · intro h e he
    rw [h e he]
    exact Bool.false_ne_true

theorem subtree_missingDirs_eq_nil {fs : FS} {q s : Path}
    (h : ∀ r ∈ ancestors q, isUnder s r = false) : subtree (missingDirs fs q) s = [] := by
  rw [subtree_eq_nil_iff]
  intro e he
  exact h e.1 (mem_missingDirs he).1

theorem subtree_rmtree_self (fs : FS) (d : Path) :
    subtree (fs.filter (fun e => !(isUnder d e.1))) d = [] := by
  rw [subtree_eq_nil_iff]
  intro e he
  rw [List.mem_filter] at he
  rcases he with ⟨_, hcond⟩
  rwa [Bool.not_eq_true'] at hcond

theorem subtree_rmtree_other {fs : FS} {d s : Path}
    (hsd : isUnder s d = false) (hds : isUnder d s = false) :
    subtree (fs.filter (fun e => !(isUnder d e.1))) s = subtree fs s := by
  unfold subtree
  rw [List.filter_filter]
  congr 1
  apply List.filter_congr
  intro e _
  cases hu : isUnder s e.1
  · simp
  · have hd : isUnder d e.1 = false := by
      cases hdu : isUnder d e.1
      · rfl
      · rcases isUnder_comparable hu hdu with hc | hc
        · rw [hc] at hsd; cases hsd
        · rw [hc] at hds; cases hds
    simp [hd]

theorem subtree_eq_nil_of_lookup_none {fs : FS} {d : Path}
    (hwf : prefixClosedB fs = true) (hd : d ≠ []) (h : List.lookup d fs = none) :
    subtree fs d = [] := by
  rw [subtree_eq_nil_iff]
  intro e he
  cases hu : isUnder d e.1
  · rfl
  · exfalso
    by_cases heq : d = e.1
    · rw [lookup_eq_none_iff] at h
      exact h e he heq.symm
    · have hmem : d ∈ ancestors e.1 := mem_ancestors_of_isUnder hu hd heq
      simp only [prefixClosedB, List.all_eq_true] at hwf
      have hall := hwf e he
      have h2 := hall d hmem
      rw [Bool.or_eq_true] at h2
      rcases h2 with h3 | h3
      · exact heq (by simpa using h3)
      · rw [h] at h3
        simp at h3

/-! ### copySub lemmas -/

theorem lookup_map_shift (d : Path) (l : FS) (t : Path) :
    List.lookup (d ++ t) (l.map (fun e => (d ++ e.1, e.2))) = List.lookup t l := by
  induction l with
  | nil => simp [List.lookup]
  | cons e m ih =>
    obtain ⟨k, v⟩ := e
    by_cases ht : t = k
    · subst ht
      simp [List.lookup]
    · have h1 : (t == k) = false := by simp [ht]
      have h2 : ((d ++ t) == (d ++ k)) = false := by
        simp [List.append_right_inj, ht]
      simp [List.lookup, h1, h2, ih]

theorem lookup_subtree (fs : FS) (s t : Path) :
    List.lookup t (subtree fs s) = List.lookup (s ++ t) fs := by
  induction fs with
  | nil => simp [subtree, List.lookup]
  | cons e l ih =>
    obtain ⟨k, v⟩ := e
    by_cases hu : isUnder s k = true
    · obtain ⟨w, rfl⟩ := isUnder_exists hu
      have hsub : subtree ((s ++ w, v) :: l) s = (w, v) :: subtree l s := by
        simp [subtree, List.filter_cons, hu, List.drop_left]
      rw [hsub]
      by_cases ht : t = w
      · subst ht
        simp [List.lookup]
      · have h1 : (t == w) = false := by simp [ht]
        have h2 : ((s ++ t) == (s ++ w)) = false := by
          simp [List.append_right_inj, ht]
        simp [List.lookup, h1, h2, ih]
    · rw [Bool.not_eq_true] at hu
      have hsub : subtree ((k, v) :: l) s = subtree l s := by
        simp [subtree, List.filter_cons, hu]
      rw [hsub]
      have h2 : ((s ++ t) == k) = false := by
        rw [beq_eq_false_iff_ne]
        intro hk
        rw [← hk, isUnder_append] at hu
        cases hu
      simp [List.lookup, h2, ih]

theorem lookup_copySub (fs : FS) (s d t : Path) :
    List.lookup (d ++ t) (copySub fs s d) = List.lookup (s ++ t) fs := by
  unfold copySub
  rw [lookup_map_shift, lookup_subtree]

theorem lookup_copySub_none {fs : FS} {s d q : Path} (h : isUnder d q = false) :
    List.lookup q (copySub fs s d) = none := by
  apply (lookup_eq_none_iff _ _).2
  intro e he hk
  simp only [copySub, List.mem_map] at he
  obtain ⟨a, _, rfl⟩ := he
  rw [← hk, isUnder_append] at h
  cases h

theorem subtree_copySub (fs : FS) (s d : Path) : subtree (copySub fs s d) d = subtree fs s := by
  have h1 : (copySub fs s d).filter (fun e => isUnder d e.1) = copySub fs s d :=
    List.filter_eq_self.2 (fun e he => by
      simp only [copySub, List.mem_map] at he
      obtain ⟨a, _, rfl⟩ := he
      exact isUnder_append d a.1)
  unfold subtree
  rw [h1]
  unfold copySub
  rw [List.map_map]
  have h2 : ∀ a ∈ subtree fs s,
      ((fun e : Path × Node => (e.1.drop d.length, e.2)) ∘
        (fun e : Path × Node => (d ++ e.1, e.2))) a = a := by
    intro a _
    simp [List.drop_left]
  rw [List.map_congr_left h2]
  exact List.map_id' _

end SkillSync

namespace SkillSync

/-! Sanity examples on concrete states (removed-by-hand scratch checks are
kept as `example`s so the definitions stay evaluable). -/

example :
    install_skill
      [(["repo"], Node.dirN), (["repo", "skills"], Node.dirN),
       (["repo", "skills", "sk"], Node.dirN),
       (["repo", "skills", "sk", "f.md"], Node.fileN [104, 105])]
      ["repo", "skills", "sk"] ["home", ".config", "opencode", "skills", "sk"] =
    (true,
      [(["repo"], Node.dirN), (["repo", "skills"], Node.dirN),
       (["repo", "skills", "sk"], Node.dirN),
       (["repo", "skills", "sk", "f.md"], Node.fileN [104, 105]),
       (["home"], Node.dirN), (["home", ".config"], Node.dirN),
       (["home", ".config", "opencode"], Node.dirN),
       (["home", ".config", "opencode", "skills"], Node.dirN),
       (["home", ".config", "opencode", "skills", "sk"], Node.dirN),
       (["home", ".config", "opencode", "skills", "sk", "f.md"], Node.fileN [104, 105])]) := by
  decide

example : normalize ["a", "b", ".."] = ["a"] := by decide

example :
    remove_skill [(["a"], Node.dirN), (["a", "b"], Node.dirN)] (pathJoin ["a", "b"] "..") =
    (true, []) := by decide

end SkillSync

namespace SkillSync

/-! ### Batch counting -/

theorem runBatch_fst_le (step : FS → String → Bool × FS) (fs : FS) (names : List String) :
    (runBatch step fs names).1 ≤ names.length := by
  suffices hgen : ∀ p : Nat × FS,
      (names.foldl (fun acc n =>
        let r := step acc.2 n
        (if r.1 then acc.1 + 1 else acc.1, r.2)) p).1 ≤ p.1 + names.length by
    simpa [runBatch] using hgen (0, fs)
  induction names with
  | nil =>
    intro p
    simp
  | cons n t ih =>
    intro p
    simp only [List.foldl_cons]
    refine Nat.le_trans (ih _) ?_
    simp only [List.length_cons]
    cases hb : (step p.2 n).1 <;> simp [hb] <;> omega

/-- C7: when the destination root does not exist, `remove --all` performs no
filesystem work, reports zero removals out of zero attempts and exits with
code 0. -/
theorem remove_all_missing_dest_noop (fs : FS) (destRoot : Path) (skillArg : Option String)
    (h : existsFS fs destRoot = false) :
    mainRemove fs destRoot skillArg true = ⟨0, 0, 0, fs⟩ := by
  unfold mainRemove
  simp [h]

theorem remove_all_missing_dest_noop_witness :
    existsFS [] ["home", "x"] = false ∧
    mainRemove [] ["home", "x"] none true = ⟨0, 0, 0, []⟩ :=
  ⟨by decide, remove_all_missing_dest_noop [] ["home", "x"] none (by decide)⟩

/-- C8: target opencode with workspace scope downgrades to global with a
warning, and the opencode destination is the one fixed user-global skills
directory whatever the scope (equal to the single-target variant's). -/
theorem opencode_scope_downgrade :
    normalizeScope Target.opencode Scope.workspace = (Scope.globalScope, true) ∧
    ∀ fs home cwd scope,
      get_dest_skills_dir fs home cwd Target.opencode scope =
        get_dest_skills_dir fs home cwd Target.opencode Scope.globalScope ∧
      get_dest_skills_dir fs home cwd Target.opencode scope =
        home ++ [".config", "opencode", "skills"] ∧
      get_dest_skills_dir fs home cwd Target.opencode scope =
        get_dest_skills_dir_opencode home :=
  ⟨rfl, fun _ _ _ _ => ⟨rfl, rfl, rfl⟩⟩

/-- C6: installing a named (non-empty, so past the usage guard) skill whose
source directory does not exist warns, records the skill as failed (0 of 1
succeeded), leaves the filesystem untouched (in particular creates no
destination entry) and exits with code 0. -/
theorem install_missing_source (enum : FS → Path → List String) (fs : FS)
    (sourceRoot destRoot : Path) (name : String)
    (hname : (name == "") = false)
    (h : existsFS fs (pathJoin sourceRoot name) = false) :
    mainInstall enum fs sourceRoot destRoot (some name) false = ⟨0, 0, 1, fs⟩ := by
  unfold mainInstall falsyArg runBatch install_skill
  simp [h, hname]

theorem install_missing_source_witness :
    (("nonexistent-skill" == "") = false ∧
     existsFS exWorld (pathJoin ["repo", "skills"] "nonexistent-skill") = false) ∧
    mainInstall skillsToInstallOpencode exWorld ["repo", "skills"]
      ["home", ".config", "opencode", "skills"] (some "nonexistent-skill") false =
      ⟨0, 0, 1, exWorld⟩ :=
  ⟨⟨by decide, by decide⟩,
    install_missing_source skillsToInstallOpencode exWorld ["repo", "skills"]
      ["home", ".config", "opencode", "skills"] "nonexistent-skill" (by decide) (by decide)⟩

/-- C2 counterexample: the opencode-installer variant applies no
management-tool exclusion, so on a source root holding a non-hidden
directory named `skills-manager` its `install --all` enumeration differs
from the claimed set (which excludes that name). -/
theorem install_all_enumeration_claim_false :
    skillsToInstallOpencode exC2FS ["repo", "skills"] ≠
      claimedInstallSet exC2FS ["repo", "skills"] := by
  decide

/-- C2 amended: the unified skills-manager variant's `install --all`
enumeration is exactly the claimed set (immediate subdirectories minus
hidden entries minus the excluded management-tool names); the
opencode-installer variant's enumeration filters hidden entries only. -/
theorem install_all_enumeration_amended (fs : FS) (sourceRoot : Path) (n : String) :
    skillsToInstallUnified fs sourceRoot = claimedInstallSet fs sourceRoot ∧
    (n ∈ skillsToInstallUnified fs sourceRoot ↔
      n ∈ iterdirDirs fs sourceRoot ∧ headIs '.' n = false ∧
        excludedDirs.contains n = false) ∧
    (n ∈ skillsToInstallOpencode fs sourceRoot ↔
      n ∈ iterdirDirs fs sourceRoot ∧ headIs '.' n = false) := by
  refine ⟨rfl, ?_, ?_⟩
  · simp [skillsToInstallUnified, List.mem_filter, Bool.and_eq_true, Bool.not_eq_true',
      and_assoc]
  · simp [skillsToInstallOpencode, List.mem_filter, Bool.not_eq_true']

/-- C10: skill names are used in path construction unvalidated: the name
`..` makes the computed destination path resolve outside the destination
root, and a successful `remove ..` deletes the parent directory of the
destination root (here the whole configuration directory). -/
theorem remove_dotdot_escapes :
    isUnder exC10DestRoot (normalize (pathJoin exC10DestRoot "..")) = false ∧
    (mainRemove exC10FS exC10DestRoot (some "..") false).exitCode = 0 ∧
    (mainRemove exC10FS exC10DestRoot (some "..") false).succeeded = 1 ∧
    existsFS (mainRemove exC10FS exC10DestRoot (some "..") false).fs
      ["home", ".config", "opencode"] = false ∧
    existsFS (mainRemove exC10FS exC10DestRoot (some "..") false).fs exC10DestRoot = false := by
  decide

/-- C5: per-item failures never abort a batch or change the exit code:
with valid arguments (a non-falsy skill name or the all flag), install and
remove process the entire enumerated batch, the success count never exceeds
the attempt count, and the process exit code is 0 however many items
failed. -/
theorem batch_failures_not_fatal (enum : FS → Path → List String) (fs : FS)
    (sourceRoot destRoot : Path) (skillArg : Option String) (allFlag : Bool)
    (h : falsyArg skillArg = false ∨ allFlag = true) :
    (mainInstall enum fs sourceRoot destRoot skillArg allFlag).exitCode = 0 ∧
    (mainInstall enum fs sourceRoot destRoot skillArg allFlag).attempted =
      (if allFlag then enum fs sourceRoot else [skillArg.getD ""]).length ∧
    (mainInstall enum fs sourceRoot destRoot skillArg allFlag).succeeded ≤
      (mainInstall enum fs sourceRoot destRoot skillArg allFlag).attempted ∧
    (mainRemove fs destRoot skillArg allFlag).exitCode = 0 ∧
    (mainRemove fs destRoot skillArg allFlag).succeeded ≤
      (mainRemove fs destRoot skillArg allFlag).attempted := by
  have hcond : (falsyArg skillArg && !allFlag) = false := by
    rcases h with h | h
    · simp [h]
    · simp [h]
  constructor
  · unfold mainInstall
    rw [hcond]
    simp
  constructor
  · unfold mainInstall
    rw [hcond]
    simp
  constructor
  · unfold mainInstall
    rw [hcond]
    simp only [Bool.false_eq_true, if_false]
    exact runBatch_fst_le _ _ _
  constructor
  · unfold mainRemove
    rw [hcond]
    by_cases hex : (allFlag && !(existsFS fs destRoot)) = true <;> simp [hex]
  · unfold mainRemove
    rw [hcond]
    by_cases hex : (allFlag && !(existsFS fs destRoot)) = true
    · simp [hex]
    · rw [Bool.not_eq_true] at hex
      simp only [hex, Bool.false_eq_true, if_false]
      exact runBatch_fst_le _ _ _

theorem batch_failures_not_fatal_witness :
    (falsyArg (some "sk") = false ∨ false = true) ∧
    ((mainInstall skillsToInstallOpencode exWorld ["repo", "skills"]
        ["home", ".config", "opencode", "skills"] (some "sk") false).exitCode = 0 ∧
      (mainInstall skillsToInstallOpencode exWorld ["repo", "skills"]
        ["home", ".config", "opencode", "skills"] (some "sk") false).attempted =
        (if false then skillsToInstallOpencode exWorld ["repo", "skills"]
          else [(some "sk" : Option String).getD ""]).length ∧
      (mainInstall skillsToInstallOpencode exWorld ["repo", "skills"]
        ["home", ".config", "opencode", "skills"] (some "sk") false).succeeded ≤
        (mainInstall skillsToInstallOpencode exWorld ["repo", "skills"]
          ["home", ".config", "opencode", "skills"] (some "sk") false).attempted ∧
      (mainRemove exWorld ["home", ".config", "opencode", "skills"]
        (some "sk") false).exitCode = 0 ∧
      (mainRemove exWorld ["home", ".config", "opencode", "skills"]
        (some "sk") false).succeeded ≤
        (mainRemove exWorld ["home", ".config", "opencode", "skills"]
          (some "sk") false).attempted) :=
  ⟨Or.inl (by decide),
    batch_failures_not_fatal skillsToInstallOpencode exWorld ["repo", "skills"]
      ["home", ".config", "opencode", "skills"] (some "sk") false (Or.inl (by decide))⟩

end SkillSync

namespace SkillSync

/-! ### Workspace marker search -/

theorem exists_and_isDir (fs : FS) (p : Path) :
    (existsFS fs p && isDirFS fs p) = isDirFS fs p := by
  unfold existsFS isDirFS lookupFS
  cases List.lookup (normalize p) fs with
  | none => simp
  | some v => simp

theorem isUnder_dropLast_of_proper {p l : Path} (h : isUnder p l = true) (hne : p ≠ l) :
    isUnder p l.dropLast = true := by
  have htake := isUnder_iff.1 h
  have hlen := isUnder_length h
  have hlt : p.length < l.length := by
    rcases Nat.lt_or_ge p.length l.length with h1 | h1
    · exact h1
    · exfalso
      apply hne
      have heq := Nat.le_antisymm hlen h1
      rw [heq, List.take_length] at htake
      exact htake.symm
  rw [isUnder_iff, List.dropLast_eq_take, List.take_take, Nat.min_eq_left (by omega)]
  exact htake

theorem findAgentUp_found (fs : FS) (cwd A : Path)
    (hAne : A ≠ []) (hdir : isDirFS fs (A ++ [".agent"]) = true)
    (hA : isUnder A cwd = true)
    (huniq : ∀ P, P ≠ [] → isUnder P cwd = true → P ≠ A →
      isDirFS fs (P ++ [".agent"]) = false) :
    findAgentUp fs cwd = some (A ++ [".agent"]) := by
  have H : ∀ n (c : Path), c.length ≤ n → isUnder A c = true →
      (∀ P, P ≠ [] → isUnder P c = true → P ≠ A →
        isDirFS fs (P ++ [".agent"]) = false) →
      findAgentUp fs c = some (A ++ [".agent"]) := by
    intro n
    induction n with
    | zero =>
      intro c hc hA2 _
      exfalso
      have hlen := isUnder_length hA2
      have hA0 : A.length = 0 := by omega
      exact hAne (List.eq_nil_of_length_eq_zero hA0)
    | succ n ih =>
      intro c hc hA2 huniq2
      by_cases hce : c = []
      · exfalso
        subst hce
        have hlen := isUnder_length hA2
        have hA0 : A.length = 0 := by simpa using hlen
        exact hAne (List.eq_nil_of_length_eq_zero hA0)
      · have hnotE : ¬ (c.isEmpty = true) := by simp [List.isEmpty_iff, hce]
        rw [findAgentUp, dif_neg hnotE]
        by_cases hcA : c = A
        · subst hcA
          rw [exists_and_isDir, hdir]
          simp
        · have hnotDir : isDirFS fs (c ++ [".agent"]) = false :=
            huniq2 c hce (isUnder_refl c) hcA
          rw [exists_and_isDir, hnotDir]
          simp only [Bool.false_eq_true, if_false]
          apply ih
          · have hdl := List.length_dropLast c
            have hpos : 0 < c.length := List.length_pos.2 hce
            omega
          · exact isUnder_dropLast_of_proper hA2 (fun hAc => hcA hAc.symm)
          · intro P hP hPd hPA
            exact huniq2 P hP (isUnder_trans hPd (isUnder_dropLast c)) hPA
  exact H cwd.length cwd (Nat.le_refl _) hA huniq

theorem findAgentUp_none (fs : FS) (cwd : Path)
    (h : ∀ P, P ≠ [] → isUnder P cwd = true → isDirFS fs (P ++ [".agent"]) = false) :
    findAgentUp fs cwd = none := by
  have H : ∀ n (c : Path), c.length ≤ n →
      (∀ P, P ≠ [] → isUnder P c = true → isDirFS fs (P ++ [".agent"]) = false) →
      findAgentUp fs c = none := by
    intro n
    induction n with
    | zero =>
      intro c hc _
      have hce : c = [] := List.eq_nil_of_length_eq_zero (by omega)
      subst hce
      rw [findAgentUp]
      simp
    | succ n ih =>
      intro c hc h2
      by_cases hce : c = []
      · subst hce
        rw [findAgentUp]
        simp
      · have hnotE : ¬ (c.isEmpty = true) := by simp [List.isEmpty_iff, hce]
        rw [findAgentUp, dif_neg hnotE]
        have hnotDir : isDirFS fs (c ++ [".agent"]) = false := h2 c hce (isUnder_refl c)
        rw [exists_and_isDir, hnotDir]
        simp only [Bool.false_eq_true, if_false]
        apply ih
        · have hdl := List.length_dropLast c
          have hpos : 0 < c.length := List.length_pos.2 hce
          omega
        · intro P hP hPd
          exact h2 P hP (isUnder_trans hPd (isUnder_dropLast c))
  exact H cwd.length cwd (Nat.le_refl _) h

/-- C3: workspace-scope resolution for target antigravity: when exactly one
ancestor A of the current directory (the current directory included, the
filesystem root excluded) holds the `.agent` marker directory, the resolved
path is `A/.agent/skills`, whatever descendant of A is current; when no such
ancestor holds the marker, the resolved path is `<cwd>/.agent/skills`. -/
theorem workspace_resolution (fs : FS) (home cwd A : Path) :
    ((A ≠ [] ∧ isDirFS fs (A ++ [".agent"]) = true ∧ isUnder A cwd = true ∧
      (∀ P, P ≠ [] → isUnder P cwd = true → P ≠ A →
        isDirFS fs (P ++ [".agent"]) = false)) →
      get_dest_skills_dir fs home cwd Target.antigravity Scope.workspace =
        A ++ [".agent", "skills"]) ∧
    ((∀ P, P ≠ [] → isUnder P cwd = true → isDirFS fs (P ++ [".agent"]) = false) →
      get_dest_skills_dir fs home cwd Target.antigravity Scope.workspace =
        cwd ++ [".agent", "skills"]) := by
  constructor
  · rintro ⟨hAne, hdir, hA, huniq⟩
    simp [get_dest_skills_dir, findAgentUp_found fs cwd A hAne hdir hA huniq]
  · intro hnone
    simp [get_dest_skills_dir, findAgentUp_none fs cwd hnone]

theorem workspace_resolution_witness :
    get_dest_skills_dir exC3FS ["home"] ["ws", "proj"] Target.antigravity Scope.workspace =
      ["ws", ".agent", "skills"] := by
  have happ : (["ws"] : Path) ++ [".agent", "skills"] = ["ws", ".agent", "skills"] := rfl
  rw [← happ]
  apply (workspace_resolution exC3FS ["home"] ["ws", "proj"] ["ws"]).1
  refine ⟨by decide, by decide, by decide, ?_⟩
  intro P hP hPu hPA
  have htake := isUnder_iff.1 hPu
  have hlen := isUnder_length hPu
  have hpos : 0 < P.length := List.length_pos.2 hP
  have hcases : P.length = 1 ∨ P.length = 2 := by
    simp at hlen
    omega
  rcases hcases with h1 | h1
  · exfalso
    apply hPA
    rw [← htake, h1]
    rfl
  · have hPeq : P = ["ws", "proj"] := by
      rw [← htake, h1]
      rfl
    rw [hPeq]
    decide

theorem findAgentUpSt_eq (fs : FS) (current : Path) :
    findAgentUpSt fs current = (findAgentUp fs current, fs) := by
  have H : ∀ n (c : Path), c.length ≤ n → findAgentUpSt fs c = (findAgentUp fs c, fs) := by
    intro n
    induction n with
    | zero =>
      intro c hc
      have hce : c = [] := List.eq_nil_of_length_eq_zero (by omega)
      subst hce
      rw [findAgentUpSt, findAgentUp]
      simp
    | succ n ih =>
      intro c hc
      by_cases hce : c = []
      · subst hce
        rw [findAgentUpSt, findAgentUp]
        simp
      · have hnotE : ¬ (c.isEmpty = true) := by simp [List.isEmpty_iff, hce]
        rw [findAgentUpSt, findAgentUp, dif_neg hnotE, dif_neg hnotE]
        simp only [existsOp, isDirOp, existsFS, isDirFS, lookupFS]
        by_cases hcond : ((List.lookup (normalize (c ++ [".agent"])) fs).isSome &&
            (List.lookup (normalize (c ++ [".agent"])) fs == some Node.dirN)) = true
        · rw [if_pos hcond, if_pos hcond]
        · rw [if_neg hcond, if_neg hcond]
          apply ih
          have hdl := List.length_dropLast c
          have hpos : 0 < c.length := List.length_pos.2 hce
          omega
  exact H current.length current (Nat.le_refl _)

/-- C9: destination-root resolution is a deterministic, side-effect-free
function: threading the filesystem state through every primitive read the
python function performs returns the state unchanged (no directory is ever
created) together with the path the pure resolution function computes. -/
theorem resolution_pure (fs : FS) (home cwd : Path) (target : Target) (scope : Scope) :
    getDestSkillsDirSt fs home cwd target scope =
      (get_dest_skills_dir fs home cwd target scope, fs) := by
  cases target with
  | opencode => rfl
  | antigravity =>
    cases scope with
    | globalScope => rfl
    | workspace =>
      unfold getDestSkillsDirSt get_dest_skills_dir
      rw [findAgentUpSt_eq]
      cases hf : findAgentUp fs cwd <;> simp [hf]

end SkillSync

namespace SkillSync

/-! ### More lookup helpers -/

theorem lookup_append_left {k : Path} {l m : FS} {v : Node} (h : List.lookup k l = some v) :
    List.lookup k (l ++ m) = some v := by
  rw [lookup_append, h]
  rfl

theorem lookup_append_none {k : Path} {l m : FS} (h : List.lookup k l = none) :
    List.lookup k (l ++ m) = List.lookup k m := by
  rw [lookup_append, h]
  rfl

theorem lookup_missingDirs_none {fs : FS} {q k : Path} (h : k ∉ ancestors q) :
    List.lookup k (missingDirs fs q) = none := by
  rw [lookup_eq_none_iff]
  intro e he heq
  exact h (heq ▸ (mem_missingDirs he).1)

theorem dst_not_mem_ancestors_dropLast {dst : Path} (hdne : dst ≠ []) :
    dst ∉ ancestors dst.dropLast := by
  intro hmem
  have hspec := mem_ancestors_spec hmem
  have hlen := hspec.2.2
  have hdl := List.length_dropLast dst
  have hpos : 0 < dst.length := List.length_pos.2 hdne
  omega

theorem subtree_missingDirs_dropLast_self (g : FS) (dst : Path) (hdne : dst ≠ []) :
    subtree (missingDirs g dst.dropLast) dst = [] := by
  apply subtree_missingDirs_eq_nil
  intro r hr
  have hspec := mem_ancestors_spec hr
  have hrl := hspec.2.2
  apply isUnder_false_of_shorter
  have hdl := List.length_dropLast dst
  have hpos : 0 < dst.length := List.length_pos.2 hdne
  omega

theorem subtree_missingDirs_dropLast_other (g : FS) (src dst : Path)
    (hsd : isUnder src dst = false) :
    subtree (missingDirs g dst.dropLast) src = [] := by
  apply subtree_missingDirs_eq_nil
  intro r hr
  have hspec := mem_ancestors_spec hr
  cases hu : isUnder src r with
  | false => rfl
  | true =>
    exfalso
    have h2 : isUnder src dst = true :=
      isUnder_trans (isUnder_trans hu hspec.1) (isUnder_dropLast dst)
    rw [h2] at hsd
    cases hsd

theorem filter_rmtree_eq_self {fs : FS} {d : Path} (h : subtree fs d = []) :
    fs.filter (fun e => !(isUnder d e.1)) = fs := by
  apply List.filter_eq_self.2
  intro e he
  rw [subtree_eq_nil_iff] at h
  rw [h e he]
  rfl

theorem lookup_none_of_subtree_nil {fs : FS} {d : Path} (h : subtree fs d = []) :
    List.lookup d fs = none := by
  rw [lookup_eq_none_iff]
  intro e he heq
  rw [subtree_eq_nil_iff] at h
  have hf := h e he
  rw [heq, isUnder_refl] at hf
  cases hf

theorem hasFileAt_append_dirs {fs M : FS} (hM : ∀ e ∈ M, e.2 = Node.dirN) (r : Path)
    (h : hasFileAt fs r = false) : hasFileAt (fs ++ M) r = false := by
  unfold hasFileAt at h ⊢
  rw [lookup_append]
  cases hl : List.lookup r fs with
  | some v =>
    rw [hl] at h
    cases v with
    | dirN => rfl
    | fileN c => simp at h
  | none =>
    cases hm : List.lookup r M with
    | none => rfl
    | some w =>
      have hw := hM _ (lookup_mem hm)
      simp only at hw
      rw [hw]
      rfl

/-! ### Evaluation lemmas for the install pipeline -/

theorem mkdir_eval_error {fs1 : FS} {p : Path} (hpC : canonPath p = true)
    (hany : (ancestors p).any (fun r => hasFileAt fs1 r) = true) :
    mkdirParentsFS fs1 p = Except.error "FileExistsError" := by
  simp only [mkdirParentsFS, normalize_canon hpC, hany, if_true]

theorem mkdir_eval_ok {fs1 : FS} {p : Path} (hpC : canonPath p = true)
    (hany : (ancestors p).any (fun r => hasFileAt fs1 r) = false) :
    mkdirParentsFS fs1 p = Except.ok (fs1 ++ missingDirs fs1 p) := by
  simp only [mkdirParentsFS, normalize_canon hpC, hany, Bool.false_eq_true, if_false]

theorem copytree_eval_fileN {fs2 : FS} {src dst : Path} {c : List Nat}
    (hsC : canonPath src = true) (hdC : canonPath dst = true)
    (hls : List.lookup src fs2 = some (Node.fileN c)) :
    copytreeFS fs2 src dst = Except.error "NotADirectoryError" := by
  simp only [copytreeFS, normalize_canon hsC, normalize_canon hdC, hls]

theorem copytree_eval_ok {fs2 : FS} {src dst : Path}
    (hsC : canonPath src = true) (hdC : canonPath dst = true)
    (hls : List.lookup src fs2 = some Node.dirN) (hld : List.lookup dst fs2 = none) :
    copytreeFS fs2 src dst =
      Except.ok ((fs2 ++ missingDirs fs2 dst.dropLast) ++
        copySub (fs2 ++ missingDirs fs2 dst.dropLast) src dst) := by
  simp only [copytreeFS, normalize_canon hsC, normalize_canon hdC, hls, hld,
    Option.isSome_none, Bool.false_eq_true, if_false]

theorem install_eval_noSrc {fs : FS} {src dst : Path} (h : existsFS fs src = false) :
    install_skill fs src dst = (false, fs) := by
  unfold install_skill
  rw [h]
  rfl

theorem install_eval_tail (fs fs1 : FS) (src dst : Path)
    (hexs : existsFS fs src = true)
    (hrm : (if existsFS fs dst then rmtreeFS fs dst else Except.ok fs) = Except.ok fs1) :
    install_skill fs src dst =
      (match mkdirParentsFS fs1 dst.dropLast with
       | Except.error _ => (false, fs1)
       | Except.ok fs2 =>
         match copytreeFS fs2 src dst with
         | Except.error _ => (false, fs2)
         | Except.ok fs3 => (true, fs3)) := by
  unfold install_skill
  rw [hexs, hrm]
  rfl

end SkillSync

namespace SkillSync

theorem install_skill_ok_shape {fs fsR : FS} {src dst : Path}
    (hsC : canonPath src = true) (hdC : canonPath dst = true)
    (hrun : install_skill fs src dst = (true, fsR)) :
    ∃ fs1, (fs1 = fs.filter (fun e => !(isUnder dst e.1)) ∨
            (fs1 = fs ∧ List.lookup dst fs = none)) ∧
      fsR = ((fs1 ++ missingDirs fs1 dst.dropLast) ++
              missingDirs (fs1 ++ missingDirs fs1 dst.dropLast) dst.dropLast) ++
            copySub ((fs1 ++ missingDirs fs1 dst.dropLast) ++
              missingDirs (fs1 ++ missingDirs fs1 dst.dropLast) dst.dropLast) src dst := by
  cases hexs : existsFS fs src with
  | false =>
    rw [install_eval_noSrc hexs] at hrun
    simp at hrun
  | true =>
    have hstage : ∃ fs1,
        ((if existsFS fs dst then rmtreeFS fs dst else Except.ok fs) = Except.ok fs1) ∧
        (fs1 = fs.filter (fun e => !(isUnder dst e.1)) ∨
          (fs1 = fs ∧ List.lookup dst fs = none)) := by
      cases hexd : existsFS fs dst with
      | false =>
        refine ⟨fs, ?_, Or.inr ⟨rfl, ?_⟩⟩
        · rfl
        · unfold existsFS lookupFS at hexd
          rw [normalize_canon hdC] at hexd
          cases hl : List.lookup dst fs with
          | none => rfl
          | some v => rw [hl] at hexd; simp at hexd
      | true =>
        cases hld : List.lookup dst fs with
        | none =>
          exfalso
          unfold existsFS lookupFS at hexd
          rw [normalize_canon hdC, hld] at hexd
          simp at hexd
        | some v =>
          cases v with
          | fileN c =>
            exfalso
            have hinst : install_skill fs src dst = (false, fs) := by
              unfold install_skill rmtreeFS
              rw [hexs, hexd, normalize_canon hdC, hld]
              rfl
            rw [hinst] at hrun
            simp at hrun
          | dirN =>
            refine ⟨fs.filter (fun e => !(isUnder dst e.1)), ?_, Or.inl rfl⟩
            show rmtreeFS fs dst = Except.ok (fs.filter (fun e => !(isUnder dst e.1)))
            unfold rmtreeFS
            rw [normalize_canon hdC, hld]
    obtain ⟨fs1, hrm, hfs1⟩ := hstage
    cases hany : (ancestors dst.dropLast).any (fun r => hasFileAt fs1 r) with
    | true =>
      exfalso
      have hinst : install_skill fs src dst = (false, fs1) := by
        rw [install_eval_tail fs fs1 src dst hexs hrm,
          mkdir_eval_error (canonPath_dropLast hdC) hany]
      rw [hinst] at hrun
      simp at hrun
    | false =>
      cases hls : List.lookup src (fs1 ++ missingDirs fs1 dst.dropLast) with
      | none =>
        exfalso
        have hinst : install_skill fs src dst =
            (false, fs1 ++ missingDirs fs1 dst.dropLast) := by
          rw [install_eval_tail fs fs1 src dst hexs hrm,
            mkdir_eval_ok (canonPath_dropLast hdC) hany]
          show (match copytreeFS (fs1 ++ missingDirs fs1 dst.dropLast) src dst with
                | Except.error _ => (false, fs1 ++ missingDirs fs1 dst.dropLast)
                | Except.ok fs3 => (true, fs3)) =
              (false, fs1 ++ missingDirs fs1 dst.dropLast)
          have hcp : copytreeFS (fs1 ++ missingDirs fs1 dst.dropLast) src dst =
              Except.error "FileNotFoundError" := by
            simp only [copytreeFS, normalize_canon hsC, normalize_canon hdC, hls]
          rw [hcp]
        rw [hinst] at hrun
        simp at hrun
      | some v =>
        cases v with
        | fileN c =>
          exfalso
          have hinst : install_skill fs src dst =
              (false, fs1 ++ missingDirs fs1 dst.dropLast) := by
            rw [install_eval_tail fs fs1 src dst hexs hrm,
              mkdir_eval_ok (canonPath_dropLast hdC) hany]
            show (match copytreeFS (fs1 ++ missingDirs fs1 dst.dropLast) src dst with
                  | Except.error _ => (false, fs1 ++ missingDirs fs1 dst.dropLast)
                  | Except.ok fs3 => (true, fs3)) =
                (false, fs1 ++ missingDirs fs1 dst.dropLast)
            rw [copytree_eval_fileN hsC hdC hls]
          rw [hinst] at hrun
          simp at hrun
        | dirN =>
          cases hldd : List.lookup dst (fs1 ++ missingDirs fs1 dst.dropLast) with
          | some w =>
            exfalso
            have hinst : install_skill fs src dst =
                (false, fs1 ++ missingDirs fs1 dst.dropLast) := by
              rw [install_eval_tail fs fs1 src dst hexs hrm,
                mkdir_eval_ok (canonPath_dropLast hdC) hany]
              show (match copytreeFS (fs1 ++ missingDirs fs1 dst.dropLast) src dst with
                    | Except.error _ => (false, fs1 ++ missingDirs fs1 dst.dropLast)
                    | Except.ok fs3 => (true, fs3)) =
                  (false, fs1 ++ missingDirs fs1 dst.dropLast)
              have hcp : copytreeFS (fs1 ++ missingDirs fs1 dst.dropLast) src dst =
                  Except.error "FileExistsError" := by
                simp only [copytreeFS, normalize_canon hsC, normalize_canon hdC, hls, hldd,
                  Option.isSome_some, if_true]
              rw [hcp]
            rw [hinst] at hrun
            simp at hrun
          | none =>
            have hinst : install_skill fs src dst =
                (true,
                  ((fs1 ++ missingDirs fs1 dst.dropLast) ++
                    missingDirs (fs1 ++ missingDirs fs1 dst.dropLast) dst.dropLast) ++
                  copySub ((fs1 ++ missingDirs fs1 dst.dropLast) ++
                    missingDirs (fs1 ++ missingDirs fs1 dst.dropLast) dst.dropLast) src dst) := by
              rw [install_eval_tail fs fs1 src dst hexs hrm,
                mkdir_eval_ok (canonPath_dropLast hdC) hany]
              show (match copytreeFS (fs1 ++ missingDirs fs1 dst.dropLast) src dst with
                    | Except.error _ => (false, fs1 ++ missingDirs fs1 dst.dropLast)
                    | Except.ok fs3 => (true, fs3)) =
                  (true,
                    ((fs1 ++ missingDirs fs1 dst.dropLast) ++
                      missingDirs (fs1 ++ missingDirs fs1 dst.dropLast) dst.dropLast) ++
                    copySub ((fs1 ++ missingDirs fs1 dst.dropLast) ++
                      missingDirs (fs1 ++ missingDirs fs1 dst.dropLast) dst.dropLast) src dst)
              rw [copytree_eval_ok hsC hdC hls hldd]
            rw [hinst] at hrun
            simp only [Prod.mk.injEq, true_and] at hrun
            exact ⟨fs1, hfs1, hrun.symm⟩

end SkillSync

namespace SkillSync

/-- C1: when `install_skill` reports success, the destination directory
`destination_root/S` holds exactly (byte for byte) the tree the source
directory `source_root/S` held at invocation time, with nothing left from
any earlier version; when `remove_skill` reports success, no path for `S`
remains under the destination root. -/
theorem install_remove_exact (fs : FS) (sourceRoot destRoot : Path) (S : String)
    (hwf : prefixClosedB fs = true)
    (hsC : canonPath sourceRoot = true) (hdC : canonPath destRoot = true)
    (hS : plainSeg S = true)
    (hsd : isUnder (sourceRoot ++ [S]) (destRoot ++ [S]) = false)
    (hds : isUnder (destRoot ++ [S]) (sourceRoot ++ [S]) = false) :
    ((install_skill fs (sourceRoot ++ [S]) (destRoot ++ [S])).1 = true →
      subtree (install_skill fs (sourceRoot ++ [S]) (destRoot ++ [S])).2 (destRoot ++ [S]) =
        subtree fs (sourceRoot ++ [S])) ∧
    ((remove_skill fs (destRoot ++ [S])).1 = true →
      subtree (remove_skill fs (destRoot ++ [S])).2 (destRoot ++ [S]) = [] ∧
      existsFS (remove_skill fs (destRoot ++ [S])).2 (destRoot ++ [S]) = false) := by
  have hSC : canonPath ([S] : Path) = true := by
    simp [canonPath, hS]
  have hsrcC : canonPath (sourceRoot ++ [S]) = true := canonPath_append hsC hSC
  have hdstC : canonPath (destRoot ++ [S]) = true := canonPath_append hdC hSC
  have hdne : destRoot ++ [S] ≠ [] := by simp
  constructor
  · intro hsucc
    rcases hpair : install_skill fs (sourceRoot ++ [S]) (destRoot ++ [S]) with ⟨b, fsR⟩
    rw [hpair] at hsucc
    simp only at hsucc
    subst hsucc
    simp only
    obtain ⟨fs1, hfs1, hshape⟩ := install_skill_ok_shape hsrcC hdstC hpair
    have hP1 : subtree fs1 (destRoot ++ [S]) = [] := by
      rcases hfs1 with h1 | ⟨h1, hl⟩
      · rw [h1]
        exact subtree_rmtree_self fs (destRoot ++ [S])
      · rw [h1]
        exact subtree_eq_nil_of_lookup_none hwf hdne hl
    have hP2 : subtree fs1 (sourceRoot ++ [S]) = subtree fs (sourceRoot ++ [S]) := by
      rcases hfs1 with h1 | ⟨h1, hl⟩
      · rw [h1]
        exact subtree_rmtree_other hsd hds
      · rw [h1]
    have hm1 := subtree_missingDirs_dropLast_self fs1 (destRoot ++ [S]) hdne
    have hm2 := subtree_missingDirs_dropLast_self
      (fs1 ++ missingDirs fs1 (List.dropLast (destRoot ++ [S]))) (destRoot ++ [S]) hdne
    have hm3 := subtree_missingDirs_dropLast_other fs1 (sourceRoot ++ [S]) (destRoot ++ [S]) hsd
    have hm4 := subtree_missingDirs_dropLast_other
      (fs1 ++ missingDirs fs1 (List.dropLast (destRoot ++ [S]))) (sourceRoot ++ [S])
      (destRoot ++ [S]) hsd
    rw [hshape]
    simp only [subtree_append, subtree_copySub]
    rw [hP1, hP2, hm1, hm2, hm3, hm4]
    simp
  · intro hsucc
    rcases hpair : remove_skill fs (destRoot ++ [S]) with ⟨b, fsR⟩
    rw [hpair] at hsucc
    simp only at hsucc
    subst hsucc
    simp only
    unfold remove_skill at hpair
    cases hex : existsFS fs (destRoot ++ [S]) with
    | false =>
      rw [hex] at hpair
      simp at hpair
    | true =>
      rw [hex] at hpair
      simp only [Bool.not_true, Bool.false_eq_true, if_false] at hpair
      unfold existsFS lookupFS at hex
      rw [normalize_canon hdstC] at hex
      cases hld : List.lookup (destRoot ++ [S]) fs with
      | none =>
        rw [hld] at hex
        simp at hex
      | some v =>
        cases v with
        | fileN c =>
          have hrmE : rmtreeFS fs (destRoot ++ [S]) = Except.error "NotADirectoryError" := by
            unfold rmtreeFS
            rw [normalize_canon hdstC, hld]
          rw [hrmE] at hpair
          simp at hpair
        | dirN =>
          have hrmO : rmtreeFS fs (destRoot ++ [S]) =
              Except.ok (fs.filter (fun e => !(isUnder (destRoot ++ [S]) e.1))) := by
            unfold rmtreeFS
            rw [normalize_canon hdstC, hld]
          rw [hrmO] at hpair
          simp only [Prod.mk.injEq] at hpair
          rw [← hpair.2]
          constructor
          · exact subtree_rmtree_self fs (destRoot ++ [S])
          · unfold existsFS lookupFS
            rw [normalize_canon hdstC]
            rw [lookup_filter (fun k => !(isUnder (destRoot ++ [S]) k)) (destRoot ++ [S]) fs]
            simp [isUnder_refl]

end SkillSync

namespace SkillSync

theorem install_remove_exact_witness :
    (prefixClosedB exWorld = true ∧
     canonPath exSrcRoot = true ∧
     canonPath exDestRoot = true ∧
     plainSeg "sk" = true ∧
     isUnder (exSrcRoot ++ ["sk"]) (exDestRoot ++ ["sk"]) = false ∧
     isUnder (exDestRoot ++ ["sk"]) (exSrcRoot ++ ["sk"]) = false) ∧
    (((install_skill exWorld (exSrcRoot ++ ["sk"]) (exDestRoot ++ ["sk"])).1 = true →
      subtree (install_skill exWorld (exSrcRoot ++ ["sk"]) (exDestRoot ++ ["sk"])).2
          (exDestRoot ++ ["sk"]) =
        subtree exWorld (exSrcRoot ++ ["sk"])) ∧
     ((remove_skill exWorld (exDestRoot ++ ["sk"])).1 = true →
      subtree (remove_skill exWorld (exDestRoot ++ ["sk"])).2 (exDestRoot ++ ["sk"]) = [] ∧
      existsFS (remove_skill exWorld (exDestRoot ++ ["sk"])).2 (exDestRoot ++ ["sk"]) = false)) :=
  ⟨⟨by decide, by decide, by decide, by decide, by decide, by decide⟩,
    install_remove_exact exWorld exSrcRoot exDestRoot "sk"
      (by decide) (by decide) (by decide) (by decide) (by decide) (by decide)⟩

end SkillSync

namespace SkillSync

/-! ### More evaluation lemmas, used for idempotence -/

theorem any_hasFileAt_append_missing {fs1 : FS} {p : Path}
    (hany : (ancestors p).any (fun r => hasFileAt fs1 r) = false) (q : Path) :
    (ancestors p).any (fun r => hasFileAt (fs1 ++ missingDirs fs1 q) r) = false := by
  rw [List.any_eq_false] at hany ⊢
  intro r hr
  have h0 := hany r hr
  rw [Bool.not_eq_true] at h0 ⊢
  exact hasFileAt_append_dirs (fun e he => (mem_missingDirs he).2.1) r h0

theorem missingDirs_after_mkdir (fs1 : FS) (p : Path) :
    missingDirs (fs1 ++ missingDirs fs1 p) p = [] :=
  missingDirs_eq_nil (fun r hr => lookup_after_mkdir r hr)

theorem lookup_copySub_self (fs : FS) (s d : Path) :
    List.lookup d (copySub fs s d) = List.lookup s fs := by
  have h := lookup_copySub fs s d []
  rwa [List.append_nil, List.append_nil] at h

theorem filter_T_eq (fs2 : FS) (src dst : Path) (hsub2 : subtree fs2 dst = []) :
    (fs2 ++ copySub fs2 src dst).filter (fun e => !(isUnder dst e.1)) = fs2 := by
  rw [List.filter_append, filter_rmtree_eq_self hsub2]
  have hB : (copySub fs2 src dst).filter (fun e => !(isUnder dst e.1)) = [] := by
    rw [List.filter_eq_nil_iff]
    intro e he
    simp only [copySub, List.mem_map] at he
    obtain ⟨a, _, rfl⟩ := he
    simp [isUnder_append]
  rw [hB, List.append_nil]

theorem install_eval_mkdirFail (fs fs1 : FS) (src dst : Path)
    (hdC : canonPath dst = true)
    (hexs : existsFS fs src = true)
    (hrm : (if existsFS fs dst then rmtreeFS fs dst else Except.ok fs) = Except.ok fs1)
    (hany : (ancestors dst.dropLast).any (fun r => hasFileAt fs1 r) = true) :
    install_skill fs src dst = (false, fs1) := by
  rw [install_eval_tail fs fs1 src dst hexs hrm,
    mkdir_eval_error (canonPath_dropLast hdC) hany]

theorem install_eval_srcFile (fs fs1 : FS) (src dst : Path) {c : List Nat}
    (hsC : canonPath src = true) (hdC : canonPath dst = true)
    (hexs : existsFS fs src = true)
    (hrm : (if existsFS fs dst then rmtreeFS fs dst else Except.ok fs) = Except.ok fs1)
    (hany : (ancestors dst.dropLast).any (fun r => hasFileAt fs1 r) = false)
    (hls : List.lookup src (fs1 ++ missingDirs fs1 dst.dropLast) = some (Node.fileN c)) :
    install_skill fs src dst = (false, fs1 ++ missingDirs fs1 dst.dropLast) := by
  rw [install_eval_tail fs fs1 src dst hexs hrm,
    mkdir_eval_ok (canonPath_dropLast hdC) hany]
  show (match copytreeFS (fs1 ++ missingDirs fs1 dst.dropLast) src dst with
        | Except.error _ => (false, fs1 ++ missingDirs fs1 dst.dropLast)
        | Except.ok fs3 => (true, fs3)) =
      (false, fs1 ++ missingDirs fs1 dst.dropLast)
  rw [copytree_eval_fileN hsC hdC hls]

theorem install_eval_success (fs fs1 : FS) (src dst : Path)
    (hsC : canonPath src = true) (hdC : canonPath dst = true)
    (hexs : existsFS fs src = true)
    (hrm : (if existsFS fs dst then rmtreeFS fs dst else Except.ok fs) = Except.ok fs1)
    (hany : (ancestors dst.dropLast).any (fun r => hasFileAt fs1 r) = false)
    (hls : List.lookup src (fs1 ++ missingDirs fs1 dst.dropLast) = some Node.dirN)
    (hld : List.lookup dst (fs1 ++ missingDirs fs1 dst.dropLast) = none) :
    install_skill fs src dst =
      (true, ((fs1 ++ missingDirs fs1 dst.dropLast) ++
          missingDirs (fs1 ++ missingDirs fs1 dst.dropLast) dst.dropLast) ++
        copySub ((fs1 ++ missingDirs fs1 dst.dropLast) ++
          missingDirs (fs1 ++ missingDirs fs1 dst.dropLast) dst.dropLast) src dst) := by
  rw [install_eval_tail fs fs1 src dst hexs hrm,
    mkdir_eval_ok (canonPath_dropLast hdC) hany]
  show (match copytreeFS (fs1 ++ missingDirs fs1 dst.dropLast) src dst with
        | Except.error _ => (false, fs1 ++ missingDirs fs1 dst.dropLast)
        | Except.ok fs3 => (true, fs3)) =
      (true, ((fs1 ++ missingDirs fs1 dst.dropLast) ++
          missingDirs (fs1 ++ missingDirs fs1 dst.dropLast) dst.dropLast) ++
        copySub ((fs1 ++ missingDirs fs1 dst.dropLast) ++
          missingDirs (fs1 ++ missingDirs fs1 dst.dropLast) dst.dropLast) src dst)
  rw [copytree_eval_ok hsC hdC hls hld]

end SkillSync

namespace SkillSync

theorem install_idem_tail (fs fs1 : FS) (src dst : Path)
    (hsC : canonPath src = true) (hdC : canonPath dst = true)
    (hsd : isUnder src dst = false) (hds : isUnder dst src = false)
    (hdne : dst ≠ [])
    (hexs : existsFS fs src = true)
    (hrm : (if existsFS fs dst then rmtreeFS fs dst else Except.ok fs) = Except.ok fs1)
    (hnosub : subtree fs1 dst = [])
    (hsrc1 : List.lookup src fs1 = List.lookup src fs) :
    (install_skill (install_skill fs src dst).2 src dst).2 =
      (install_skill fs src dst).2 := by
  have hpdC := canonPath_dropLast hdC
  have hld1 : List.lookup dst fs1 = none := lookup_none_of_subtree_nil hnosub
  have hv : ∃ v, List.lookup src fs = some v := by
    unfold existsFS lookupFS at hexs
    rw [normalize_canon hsC] at hexs
    cases hl : List.lookup src fs with
    | none => rw [hl] at hexs; simp at hexs
    | some v => exact ⟨v, rfl⟩
  obtain ⟨v, hv⟩ := hv
  have hexs1 : existsFS fs1 src = true := by
    unfold existsFS lookupFS
    rw [normalize_canon hsC, hsrc1, hv]
    rfl
  have hexd1 : existsFS fs1 dst = false := by
    unfold existsFS lookupFS
    rw [normalize_canon hdC, hld1]
    rfl
  have hrm1 : (if existsFS fs1 dst then rmtreeFS fs1 dst else Except.ok fs1) =
      Except.ok fs1 := by
    rw [hexd1]
    rfl
  cases hany : (ancestors dst.dropLast).any (fun r => hasFileAt fs1 r) with
  | true =>
    have h1 : install_skill fs src dst = (false, fs1) :=
      install_eval_mkdirFail fs fs1 src dst hdC hexs hrm hany
    have h2 : install_skill fs1 src dst = (false, fs1) :=
      install_eval_mkdirFail fs1 fs1 src dst hdC hexs1 hrm1 hany
    rw [h1]
    show (install_skill fs1 src dst).2 = fs1
    rw [h2]
  | false =>
    have hsrc2 : List.lookup src (fs1 ++ missingDirs fs1 dst.dropLast) = some v :=
      lookup_append_left (hsrc1.trans hv)
    have hld2 : List.lookup dst (fs1 ++ missingDirs fs1 dst.dropLast) = none := by
      rw [lookup_append_none hld1]
      exact lookup_missingDirs_none (dst_not_mem_ancestors_dropLast hdne)
    have hany2 : (ancestors dst.dropLast).any
        (fun r => hasFileAt (fs1 ++ missingDirs fs1 dst.dropLast) r) = false :=
      any_hasFileAt_append_missing hany dst.dropLast
    have hmiss2 : missingDirs (fs1 ++ missingDirs fs1 dst.dropLast) dst.dropLast = [] :=
      missingDirs_after_mkdir fs1 dst.dropLast
    have hsub2 : subtree (fs1 ++ missingDirs fs1 dst.dropLast) dst = [] := by
      rw [subtree_append, hnosub, subtree_missingDirs_dropLast_self fs1 dst hdne]
      rfl
    cases v with
    | fileN c =>
      have h1 : install_skill fs src dst =
          (false, fs1 ++ missingDirs fs1 dst.dropLast) :=
        install_eval_srcFile fs fs1 src dst hsC hdC hexs hrm hany hsrc2
      have hexs2 : existsFS (fs1 ++ missingDirs fs1 dst.dropLast) src = true := by
        unfold existsFS lookupFS
        rw [normalize_canon hsC, hsrc2]
        rfl
      have hexd2 : existsFS (fs1 ++ missingDirs fs1 dst.dropLast) dst = false := by
        unfold existsFS lookupFS
        rw [normalize_canon hdC, hld2]
        rfl
      have hrm2 : (if existsFS (fs1 ++ missingDirs fs1 dst.dropLast) dst then
            rmtreeFS (fs1 ++ missingDirs fs1 dst.dropLast) dst
          else Except.ok (fs1 ++ missingDirs fs1 dst.dropLast)) =
          Except.ok (fs1 ++ missingDirs fs1 dst.dropLast) := by
        rw [hexd2]
        rfl
      have hsrc3 : List.lookup src ((fs1 ++ missingDirs fs1 dst.dropLast) ++
          missingDirs (fs1 ++ missingDirs fs1 dst.dropLast) dst.dropLast) =
          some (Node.fileN c) := by
        rw [hmiss2, List.append_nil]
        exact hsrc2
      have h2 : install_skill (fs1 ++ missingDirs fs1 dst.dropLast) src dst =
          (false, (fs1 ++ missingDirs fs1 dst.dropLast) ++
            missingDirs (fs1 ++ missingDirs fs1 dst.dropLast) dst.dropLast) :=
        install_eval_srcFile _ _ src dst hsC hdC hexs2 hrm2 hany2 hsrc3
      rw [hmiss2, List.append_nil] at h2
      rw [h1]
      show (install_skill (fs1 ++ missingDirs fs1 dst.dropLast) src dst).2 =
        fs1 ++ missingDirs fs1 dst.dropLast
      rw [h2]
    | dirN =>
      have h1 := install_eval_success fs fs1 src dst hsC hdC hexs hrm hany hsrc2 hld2
      rw [hmiss2, List.append_nil] at h1
      obtain ⟨X, hX⟩ : ∃ X, fs1 ++ missingDirs fs1 dst.dropLast = X := ⟨_, rfl⟩
      rw [hX] at h1 hsrc2 hld2 hany2 hmiss2 hsub2
      have hlookT : List.lookup dst (X ++ copySub X src dst) = some Node.dirN := by
        rw [lookup_append_none hld2, lookup_copySub_self, hsrc2]
      have hexdT : existsFS (X ++ copySub X src dst) dst = true := by
        unfold existsFS lookupFS
        rw [normalize_canon hdC, hlookT]
        rfl
      have hexsT : existsFS (X ++ copySub X src dst) src = true := by
        unfold existsFS lookupFS
        rw [normalize_canon hsC, lookup_append_left hsrc2]
        rfl
      have hrmT : (if existsFS (X ++ copySub X src dst) dst then
            rmtreeFS (X ++ copySub X src dst) dst
          else Except.ok (X ++ copySub X src dst)) = Except.ok X := by
        rw [hexdT]
        show rmtreeFS (X ++ copySub X src dst) dst = Except.ok X
        unfold rmtreeFS
        rw [normalize_canon hdC, hlookT, filter_T_eq X src dst hsub2]
      have hsrc3 : List.lookup src (X ++ missingDirs X dst.dropLast) = some Node.dirN := by
        rw [hmiss2, List.append_nil]
        exact hsrc2
      have hld3 : List.lookup dst (X ++ missingDirs X dst.dropLast) = none := by
        rw [hmiss2, List.append_nil]
        exact hld2
      have h2 := install_eval_success (X ++ copySub X src dst) X src dst hsC hdC
        hexsT hrmT hany2 hsrc3 hld3
      simp only [hmiss2, List.append_nil] at h2
      rw [h1]
      show (install_skill (X ++ copySub X src dst) src dst).2 = X ++ copySub X src dst
      rw [h2]

end SkillSync

namespace SkillSync

/-- C4: installing a skill twice in succession leaves exactly the same
filesystem (hence the same destination tree) as installing it once,
whatever the initial destination state. -/
theorem install_idempotent (fs : FS) (sourceRoot destRoot : Path) (S : String)
    (hwf : prefixClosedB fs = true)
    (hsC : canonPath sourceRoot = true) (hdC : canonPath destRoot = true)
    (hS : plainSeg S = true)
    (hsd : isUnder (sourceRoot ++ [S]) (destRoot ++ [S]) = false)
    (hds : isUnder (destRoot ++ [S]) (sourceRoot ++ [S]) = false) :
    (install_skill (install_skill fs (sourceRoot ++ [S]) (destRoot ++ [S])).2
        (sourceRoot ++ [S]) (destRoot ++ [S])).2 =
      (install_skill fs (sourceRoot ++ [S]) (destRoot ++ [S])).2 := by
  have hSC : canonPath ([S] : Path) = true := by
    simp [canonPath, hS]
  have hsrcC : canonPath (sourceRoot ++ [S]) = true := canonPath_append hsC hSC
  have hdstC : canonPath (destRoot ++ [S]) = true := canonPath_append hdC hSC
  have hdne : destRoot ++ [S] ≠ [] := by simp
  obtain ⟨src, hsrceq⟩ : ∃ p, sourceRoot ++ [S] = p := ⟨_, rfl⟩
  obtain ⟨dst, hdsteq⟩ : ∃ p, destRoot ++ [S] = p := ⟨_, rfl⟩
  rw [hsrceq] at hsrcC hsd hds ⊢
  rw [hdsteq] at hdstC hdne hsd hds ⊢
  cases hexs : existsFS fs src with
  | false =>
    have h1 : install_skill fs src dst = (false, fs) := install_eval_noSrc hexs
    rw [h1]
    show (install_skill fs src dst).2 = fs
    rw [h1]
  | true =>
    cases hexd : existsFS fs dst with
    | false =>
      have hldnone : List.lookup dst fs = none := by
        unfold existsFS lookupFS at hexd
        rw [normalize_canon hdstC] at hexd
        cases hl : List.lookup dst fs with
        | none => rfl
        | some v => rw [hl] at hexd; simp at hexd
      have hrm : (if existsFS fs dst then rmtreeFS fs dst else Except.ok fs) =
          Except.ok fs := by
        rw [hexd]
        rfl
      exact install_idem_tail fs fs src dst hsrcC hdstC hsd hds hdne hexs hrm
        (subtree_eq_nil_of_lookup_none hwf hdne hldnone) rfl
    | true =>
      have hv : ∃ v, List.lookup dst fs = some v := by
        unfold existsFS lookupFS at hexd
        rw [normalize_canon hdstC] at hexd
        cases hl : List.lookup dst fs with
        | none => rw [hl] at hexd; simp at hexd
        | some v => exact ⟨v, rfl⟩
      obtain ⟨v, hld⟩ := hv
      cases v with
      | fileN c =>
        have h1 : install_skill fs src dst = (false, fs) := by
          unfold install_skill rmtreeFS
          rw [hexs, hexd, normalize_canon hdstC, hld]
          rfl
        rw [h1]
        show (install_skill fs src dst).2 = fs
        rw [h1]
      | dirN =>
        have hrm : (if existsFS fs dst then rmtreeFS fs dst else Except.ok fs) =
            Except.ok (fs.filter (fun e => !(isUnder dst e.1))) := by
          rw [hexd]
          show rmtreeFS fs dst = Except.ok (fs.filter (fun e => !(isUnder dst e.1)))
          unfold rmtreeFS
          rw [normalize_canon hdstC, hld]
        apply install_idem_tail fs _ src dst hsrcC hdstC hsd hds hdne hexs hrm
          (subtree_rmtree_self fs dst)
        rw [lookup_filter (fun k => !(isUnder dst k)) src fs, hds]
        rfl

theorem install_idempotent_witness :
    (prefixClosedB exWorld = true ∧
     canonPath exSrcRoot = true ∧
     canonPath exDestRoot = true ∧
     plainSeg "sk" = true ∧
     isUnder (exSrcRoot ++ ["sk"]) (exDestRoot ++ ["sk"]) = false ∧
     isUnder (exDestRoot ++ ["sk"]) (exSrcRoot ++ ["sk"]) = false) ∧
    (install_skill (install_skill exWorld (exSrcRoot ++ ["sk"]) (exDestRoot ++ ["sk"])).2
        (exSrcRoot ++ ["sk"]) (exDestRoot ++ ["sk"])).2 =
      (install_skill exWorld (exSrcRoot ++ ["sk"]) (exDestRoot ++ ["sk"])).2 :=
  ⟨⟨by decide, by decide, by decide, by decide, by decide, by decide⟩,
    install_idempotent exWorld exSrcRoot exDestRoot "sk"
      (by decide) (by decide) (by decide) (by decide) (by decide) (by decide)⟩

end SkillSync
